import Mathlib

/-!
# ServiceMonitor reconciliation of the OpenTelemetry operator

A shallow embedding of `pkg/controller/opentelemetryservice/reconcile_servicemonitor.go`:
the desired-state builder `serviceMonitor`, the create/update pass
`reconcileExpectedServiceMonitors`, the garbage-collection pass `deleteServiceMonitors`
and their composition `reconcileServiceMonitor`.

The Kubernetes client is an external collaborator.  The reconciler is embedded once,
generically over a `Client` record of store operations that thread an explicit state, and
every client call is appended to a call log.  Two clients are given: `memClient`, a
sequential in-memory store, and `racyClient`, the same store with a scripted concurrent
actor that mutates it between two calls of the reconciler.

The label selector of the deletion pass is built as `client.MatchingLabels` builds it, through
`selectorFromSet`, which validates the keys and values of the label set.
-/

namespace OtelOperator

/-! ## Go maps -/

/-- A non-nil Go `map[string]string`: an association list with unique keys. -/
abbrev StrMap := AList (fun _ : String => String)

/-- A Go `map[string]string` value; `none` is the nil map. -/
abbrev GoMap := Option StrMap

/-- The read `m[k]` together with its presence flag; a nil map has no key. -/
def GoMap.get? (m : GoMap) (k : String) : Option String :=
  match m with
  | none => none
  | some l => l.lookup k

/-- The entries visited by `for k, v := range m`; a nil map yields none. -/
def GoMap.range (m : GoMap) : List (String × String) :=
  match m with
  | none => []
  | some l => l.entries.map (fun e => (e.1, e.2))

/-- The loop `for k, v := range src { dst[k] = v }` on a non-nil destination.  Go leaves the
order of the visit unspecified; the entries are visited in the order of the list, and the
entries of the result do not depend on it. -/
def copyInto (dst : StrMap) (src : GoMap) : StrMap :=
  src.range.foldl (fun acc kv => acc.insert kv.1 kv.2) dst

/-! ## Kubernetes objects -/

/-- The fields of `metav1.OwnerReference`. -/
structure OwnerReference where
  apiVersion : String
  kind : String
  name : String
  uid : String
  controller : Bool
  blockOwnerDeletion : Bool
deriving DecidableEq, Repr

/-- The fields of `metav1.ObjectMeta` that the reconciler reads, writes or must preserve. -/
structure ObjectMeta where
  name : String
  ns : String
  uid : String
  resourceVersion : String
  generation : Nat
  finalizers : List String
  labels : GoMap
  annotations : GoMap
  ownerReferences : List OwnerReference
deriving DecidableEq

/-- The type `metav1.LabelSelector`, restricted to `MatchLabels`. -/
structure LabelSelector where
  matchLabels : GoMap
deriving DecidableEq

/-- The type `monitoringv1.Endpoint`, restricted to `Port`. -/
structure Endpoint where
  port : String
deriving DecidableEq, Repr

/-- The type `monitoringv1.ServiceMonitorSpec`. -/
structure ServiceMonitorSpec where
  selector : LabelSelector
  endpoints : List Endpoint
deriving DecidableEq

/-- The type `monitoringv1.ServiceMonitor`. -/
structure ServiceMonitor where
  objectMeta : ObjectMeta
  spec : ServiceMonitorSpec
deriving DecidableEq

/-- The `OpenTelemetryService` custom resource found under `ContextInstance`. -/
structure Instance where
  name : String
  ns : String
  uid : String
  annotations : GoMap
deriving DecidableEq

/-! ## The desired object -/

/-- The function `serviceMonitor`.  The result of the call `commonLabels(ctx)`, a function
that is not part of the embedded file, is the parameter `commonLabels`; both calls of it
return the same non-nil map. -/
def serviceMonitor (inst : Instance) (commonLabels : StrMap) : ServiceMonitor :=
  let name := inst.name ++ "-collector"
  let labels := commonLabels.insert "app.kubernetes.io/name" name
  let selector := commonLabels.insert "app.kubernetes.io/name" (name ++ "-monitoring")
  { objectMeta :=
      { name := name
        ns := inst.ns
        uid := ""
        resourceVersion := ""
        generation := 0
        finalizers := []
        labels := some labels
        annotations := inst.annotations
        ownerReferences := [] }
    spec :=
      { selector := { matchLabels := some selector }
        endpoints := [{ port := "monitoring" }] } }

/-- The owner reference that designates the instance as the controller of an object. -/
def controllerRef (inst : Instance) : OwnerReference :=
  { apiVersion := "opentelemetry.io/v1alpha1"
    kind := "OpenTelemetryService"
    name := inst.name
    uid := inst.uid
    controller := true
    blockOwnerDeletion := true }

/-- Modelled from the spec: the method `setControllerReference` (the Ownership Tagger) is
called by the reconciler but defined elsewhere.  It adds exactly one controller-flagged owner
back-reference to the object; an object that already has a controller-flagged reference is
left as it is, the call site discarding the failure. -/
def setControllerReference (inst : Instance) (obj : ServiceMonitor) : ServiceMonitor :=
  if obj.objectMeta.ownerReferences.any (fun r => r.controller) then obj
  else { obj with objectMeta :=
           { obj.objectMeta with
               ownerReferences := obj.objectMeta.ownerReferences ++ [controllerRef inst] } }

/-- Lines 93 to 109 of `reconcileExpectedServiceMonitors`: the object `updated`, a deep copy of
`existing` whose nil label and annotation maps are made empty, whose spec and owner references
are assigned from `desired`, and into whose annotations and labels those of `desired` are
copied key by key. -/
def updated (existing desired : ServiceMonitor) : ServiceMonitor :=
  let annotations : StrMap := match existing.objectMeta.annotations with
    | none => ∅
    | some m => m
  let labels : StrMap := match existing.objectMeta.labels with
    | none => ∅
    | some m => m
  { objectMeta :=
      { existing.objectMeta with
          ownerReferences := desired.objectMeta.ownerReferences
          annotations := some (copyInto annotations desired.objectMeta.annotations)
          labels := some (copyInto labels desired.objectMeta.labels) }
    spec := desired.spec }

/-! ## The client and the call log -/

/-- The failures a store call can report. -/
inductive StoreError where
  | notFound
  | alreadyExists
  | conflict
  | internal
deriving DecidableEq, Repr

/-- The check `errors.IsNotFound`. -/
def StoreError.isNotFound : StoreError → Bool
  | .notFound => true
  | _ => false

/-- The errors the reconciler returns, one constructor for each `fmt.Errorf` of the file. -/
inductive ReconcileError where
  | failedToCreate (cause : StoreError)
  | failedToRetrieve (cause : StoreError)
  | failedToApplyChanges (cause : StoreError)
  | failedToList (cause : StoreError)
  | failedToDelete (cause : StoreError)
  | failedToReconcileExpected (cause : ReconcileError)
  | failedToReconcileDeleted (cause : ReconcileError)
deriving DecidableEq, Repr

/-- One call issued to the client, with its arguments. -/
inductive Call where
  | get (ns name : String)
  | create (obj : ServiceMonitor)
  | update (obj : ServiceMonitor)
  | delete (obj : ServiceMonitor)
  | list (ns : String) (selector : StrMap)
deriving DecidableEq

/-- The operations of `r.client` the reconciler uses, over a store state `σ`.  Each call
returns its result and the state it leaves; a Go `error` result is `none` for `nil`. -/
structure Client (σ : Type) where
  get : σ → String → String → Except StoreError ServiceMonitor × σ
  create : σ → ServiceMonitor → Option StoreError × σ
  update : σ → ServiceMonitor → Option StoreError × σ
  delete : σ → ServiceMonitor → Option StoreError × σ
  list : σ → String → StrMap → Except StoreError (List ServiceMonitor) × σ

/-- What a reconciler function leaves behind: the returned `error` (`none` for `nil`), the
store state, and the calls issued so far, oldest first. -/
structure Outcome (σ : Type) where
  err : Option ReconcileError
  state : σ
  calls : List Call

/-! ## The reconciler -/

/-- The function `reconcileExpectedServiceMonitors`: the loop over `expected`, started in the
store state `s` with the call log `log`. -/
def reconcileExpectedServiceMonitors {σ : Type} (c : Client σ) (inst : Instance) :
    List ServiceMonitor → σ → List Call → Outcome σ
  | [], s, log => { err := none, state := s, calls := log }
  | obj :: rest, s, log =>
    let desired := setControllerReference inst obj
    let log1 := log ++ [Call.get desired.objectMeta.ns desired.objectMeta.name]
    match c.get s desired.objectMeta.ns desired.objectMeta.name with
    | (Except.error e, s1) =>
      if e.isNotFound then
        match c.create s1 desired with
        | (some e2, s2) =>
          { err := some (.failedToCreate e2), state := s2, calls := log1 ++ [Call.create desired] }
        | (none, s2) =>
          reconcileExpectedServiceMonitors c inst rest s2 (log1 ++ [Call.create desired])
      else
        { err := some (.failedToRetrieve e), state := s1, calls := log1 }
    | (Except.ok existing, s1) =>
      match c.update s1 (updated existing desired) with
      | (some e2, s2) =>
        { err := some (.failedToApplyChanges e2), state := s2,
          calls := log1 ++ [Call.update (updated existing desired)] }
      | (none, s2) =>
        reconcileExpectedServiceMonitors c inst rest s2
          (log1 ++ [Call.update (updated existing desired)])

/-- The label set that `deleteServiceMonitors` passes to `MatchingLabels`: the ownership
markers of the instance. -/
def ownershipLabels (inst : Instance) : StrMap :=
  ((∅ : StrMap).insert "app.kubernetes.io/instance" (inst.ns ++ "." ++ inst.name)).insert
    "app.kubernetes.io/managed-by" "opentelemetry-operator"

/-- The inner loop of `deleteServiceMonitors`: `del` starts true and is cleared by every
`keep` with the name and namespace of `existing`. -/
def del (expected : List ServiceMonitor) (existing : ServiceMonitor) : Bool :=
  expected.foldl
    (fun d keep =>
      if keep.objectMeta.name == existing.objectMeta.name
          && keep.objectMeta.ns == existing.objectMeta.ns then false else d)
    true

/-- The loop `for _, existing := range list.Items` of `deleteServiceMonitors`. -/
def deleteListed {σ : Type} (c : Client σ) (expected : List ServiceMonitor) :
    List ServiceMonitor → σ → List Call → Outcome σ
  | [], s, log => { err := none, state := s, calls := log }
  | existing :: rest, s, log =>
    if del expected existing then
      match c.delete s existing with
      | (some e, s1) =>
        { err := some (.failedToDelete e), state := s1, calls := log ++ [Call.delete existing] }
      | (none, s1) => deleteListed c expected rest s1 (log ++ [Call.delete existing])
    else deleteListed c expected rest s log

/-! ### Label selectors

`client.MatchingLabels` builds its selector with `labels.SelectorFromSet` of apimachinery,
which validates every key and value of the set and falls back to the selector that matches
everything when one of them is not valid. -/

/-- The character class `[A-Za-z0-9]`. -/
def qnameChar (c : Char) : Bool := c.isAlphanum

/-- The character class `[-A-Za-z0-9_.]`. -/
def qnameExtChar (c : Char) : Bool :=
  c.isAlphanum || c == '-' || c == '_' || c == '.'

/-- Whether the characters match `([A-Za-z0-9][-A-Za-z0-9_.]*)?[A-Za-z0-9]`: they are not
empty, begin and end with an alphanumeric character and hold only characters of
`[-A-Za-z0-9_.]`. -/
def matchesQualifiedName (cs : List Char) : Bool :=
  match cs, cs.getLast? with
  | first :: _, some last => qnameChar first && cs.all qnameExtChar && qnameChar last
  | _, _ => false

/-- The check `validation.IsValidLabelValue`: at most 63 characters, and empty or matching
the qualified-name format.  A string that passes the format is ASCII, so that its length in
bytes is its length in characters. -/
def isValidLabelValue (value : String) : Bool :=
  decide (value.length ≤ 63) && (value.data.isEmpty || matchesQualifiedName value.data)

/-- The parts of `strings.Split` on one separator character. -/
def splitChars (sep : Char) : List Char → List (List Char)
  | [] => [[]]
  | c :: cs =>
    if c == sep then [] :: splitChars sep cs
    else
      match splitChars sep cs with
      | [] => [[c]]
      | part :: parts => (c :: part) :: parts

/-- Whether the characters match the DNS label format `[a-z0-9]([-a-z0-9]*[a-z0-9])?`. -/
def matchesDNS1123Label (cs : List Char) : Bool :=
  match cs, cs.getLast? with
  | first :: _, some last =>
    (first.isLower || first.isDigit) && cs.all (fun c => c.isLower || c.isDigit || c == '-')
      && (last.isLower || last.isDigit)
  | _, _ => false

/-- The check `validation.IsDNS1123Subdomain`: at most 253 characters, DNS labels joined by
dots. -/
def isDNS1123Subdomain (cs : List Char) : Bool :=
  decide (cs.length ≤ 253) && (splitChars '.' cs).all matchesDNS1123Label

/-- The check `validation.IsQualifiedName` applied to label keys: a name of at most 63
characters in the qualified-name format, optionally preceded by a DNS subdomain and a
slash. -/
def isQualifiedName (key : String) : Bool :=
  match splitChars '/' key.data with
  | [name] => decide (name.length ≤ 63) && matchesQualifiedName name
  | [domain, name] =>
    !domain.isEmpty && isDNS1123Subdomain domain
      && decide (name.length ≤ 63) && matchesQualifiedName name
  | _ => false

/-- The function `labels.SelectorFromSet` behind `client.MatchingLabels`: one equality
requirement for each entry of the set; when a key or a value of the set is not valid, the
result is the selector without requirements, which matches every object. -/
def selectorFromSet (ls : StrMap) : StrMap :=
  if ls.entries.all (fun e => isQualifiedName e.1 && isValidLabelValue e.2) then ls else ∅

/-- The function `deleteServiceMonitors`. -/
def deleteServiceMonitors {σ : Type} (c : Client σ) (inst : Instance)
    (expected : List ServiceMonitor) (s : σ) (log : List Call) : Outcome σ :=
  let opts := selectorFromSet (ownershipLabels inst)
  let log1 := log ++ [Call.list inst.ns opts]
  match c.list s inst.ns opts with
  | (Except.error e, s1) => { err := some (.failedToList e), state := s1, calls := log1 }
  | (Except.ok items, s1) => deleteListed c expected items s1 log1

/-- The function `reconcileServiceMonitor`.  The boolean read by
`viper.GetBool(opentelemetry.SvcMonitorAvailable)` is the parameter `svcMonitorAvailable`, and
the result of `commonLabels(ctx)` is the parameter `commonLabels`.  In the source the create/update
pass tags the elements of `svcs` in place before the deletion pass reads them; the deletion
pass reads only their names and namespaces, which the tagging leaves alone. -/
def reconcileServiceMonitor {σ : Type} (c : Client σ) (svcMonitorAvailable : Bool)
    (inst : Instance) (commonLabels : StrMap) (s : σ) : Outcome σ :=
  if !svcMonitorAvailable then { err := none, state := s, calls := [] }
  else
    let svcs := [serviceMonitor inst commonLabels]
    let r1 := reconcileExpectedServiceMonitors c inst svcs s []
    match r1.err with
    | some e => { r1 with err := some (.failedToReconcileExpected e) }
    | none =>
      let r2 := deleteServiceMonitors c inst svcs r1.state r1.calls
      match r2.err with
      | some e => { r2 with err := some (.failedToReconcileDeleted e) }
      | none => { r2 with err := none }

/-! ## The in-memory store -/

/-- The ServiceMonitors held by the store. -/
abbrev Store := List ServiceMonitor

/-- Whether an object has the given namespace and name. -/
def hasKey (ns name : String) (o : ServiceMonitor) : Bool :=
  o.objectMeta.ns == ns && o.objectMeta.name == name

/-- Whether the labels of an object satisfy a selector of equality requirements: every
requirement is an entry of the labels.  The selector without requirements matches every
object. -/
def matchesLabels (selector : StrMap) (labels : GoMap) : Bool :=
  selector.entries.all (fun e => labels.get? e.1 == some e.2)

/-- Store `get(kind, namespace, name)`. -/
def memGet (s : Store) (ns name : String) : Except StoreError ServiceMonitor × Store :=
  match s.find? (hasKey ns name) with
  | some o => (Except.ok o, s)
  | none => (Except.error .notFound, s)

/-- Store `create(object)`: `AlreadyExists` when the name is taken in the namespace. -/
def memCreate (s : Store) (o : ServiceMonitor) : Option StoreError × Store :=
  if s.any (hasKey o.objectMeta.ns o.objectMeta.name) then (some .alreadyExists, s)
  else (none, s ++ [o])

/-- Store `update(object)`: `NotFound` when no object has that name in the namespace. -/
def memUpdate (s : Store) (o : ServiceMonitor) : Option StoreError × Store :=
  if s.any (hasKey o.objectMeta.ns o.objectMeta.name) then
    (none, s.map (fun x => if hasKey o.objectMeta.ns o.objectMeta.name x then o else x))
  else (some .notFound, s)

/-- Store `delete(kind, namespace, name)`: `NotFound` when the object is absent. -/
def memDelete (s : Store) (o : ServiceMonitor) : Option StoreError × Store :=
  if s.any (hasKey o.objectMeta.ns o.objectMeta.name) then
    (none, s.filter (fun x => !hasKey o.objectMeta.ns o.objectMeta.name x))
  else (some .notFound, s)

/-- Store `list(kind, namespace, labelSelector)`. -/
def memList (s : Store) (ns : String) (selector : StrMap) :
    Except StoreError (List ServiceMonitor) × Store :=
  (Except.ok (s.filter (fun o => o.objectMeta.ns == ns && matchesLabels selector o.objectMeta.labels)),
    s)

/-- The sequential in-memory store as a client: the store contract of the spec (section 6)
with no other actor. -/
def memClient : Client Store :=
  { get := memGet, create := memCreate, update := memUpdate, delete := memDelete,
    list := memList }

/-- The store invariant: at most one object for each namespace and name. -/
def Store.WF (s : Store) : Prop :=
  (s.map (fun o => (o.objectMeta.ns, o.objectMeta.name))).Nodup

/-! ## A store with a concurrent actor -/

/-- One step of another actor on the store. -/
inductive Mutation where
  | idle
  | put (obj : ServiceMonitor)
  | remove (ns name : String)
deriving DecidableEq

/-- The effect of a step of the other actor. -/
def Mutation.apply : Mutation → Store → Store
  | .idle, s => s
  | .put o, s =>
    if s.any (hasKey o.objectMeta.ns o.objectMeta.name) then
      s.map (fun x => if hasKey o.objectMeta.ns o.objectMeta.name x then o else x)
    else s ++ [o]
  | .remove ns name, s => s.filter (fun x => !hasKey ns name x)

/-- The store together with the steps the other actor still has to take. -/
abbrev RacyStore := Store × List Mutation

/-- Lets the other actor take its next step, right after a call has been served. -/
def interfere {α : Type} (r : α × Store) (pending : List Mutation) : α × RacyStore :=
  match pending with
  | [] => (r.1, (r.2, []))
  | m :: rest => (r.1, (m.apply r.2, rest))

/-- The in-memory store shared with another actor: every call is served atomically by the
store, and the other actor takes one step after each call. -/
def racyClient : Client RacyStore :=
  { get := fun s ns name => interfere (memGet s.1 ns name) s.2
    create := fun s o => interfere (memCreate s.1 o) s.2
    update := fun s o => interfere (memUpdate s.1 o) s.2
    delete := fun s o => interfere (memDelete s.1 o) s.2
    list := fun s ns sel => interfere (memList s.1 ns sel) s.2 }

/-! ## Content of objects and stores -/

/-- Two Go maps hold the same entries; a nil map and an empty map hold none. -/
def SameEntries (m1 m2 : GoMap) : Prop :=
  ∀ k, m1.get? k = m2.get? k

/-- Two ServiceMonitors have the same content: the same entries in their labels and in their
annotations, and every other field equal. -/
def SameContent (a b : ServiceMonitor) : Prop :=
  a.objectMeta.name = b.objectMeta.name ∧ a.objectMeta.ns = b.objectMeta.ns ∧
  a.objectMeta.uid = b.objectMeta.uid ∧
  a.objectMeta.resourceVersion = b.objectMeta.resourceVersion ∧
  a.objectMeta.generation = b.objectMeta.generation ∧
  a.objectMeta.finalizers = b.objectMeta.finalizers ∧
  SameEntries a.objectMeta.labels b.objectMeta.labels ∧
  SameEntries a.objectMeta.annotations b.objectMeta.annotations ∧
  a.objectMeta.ownerReferences = b.objectMeta.ownerReferences ∧
  a.spec = b.spec

/-- Whether an object carries the ownership markers of the instance. -/
def carriesMarkers (inst : Instance) (o : ServiceMonitor) : Bool :=
  matchesLabels (ownershipLabels inst) o.objectMeta.labels

/-! ## Sample data -/

/-- The instance of the unit tests. -/
def sampleInstance : Instance :=
  { name := "my-otelsvc", ns := "observability", uid := "u1",
    annotations := some ((∅ : StrMap).insert "custom-annotation" "custom-annotation-value") }

/-- Common labels for `sampleInstance`, with one custom label. -/
def sampleLabels : StrMap :=
  (((∅ : StrMap).insert "app.kubernetes.io/instance" "observability.my-otelsvc").insert
    "app.kubernetes.io/managed-by" "opentelemetry-operator").insert "custom-label" "custom-value"

/-- The object of `TestDeleteExtraServiceMonitor`: the desired object renamed. -/
def extraService : ServiceMonitor :=
  let c := serviceMonitor sampleInstance sampleLabels
  { c with objectMeta := { c.objectMeta with name := "extra-service" } }

/-- The desired object for `sampleInstance`, tagged with its owner. -/
def desiredSample : ServiceMonitor :=
  setControllerReference sampleInstance (serviceMonitor sampleInstance sampleLabels)

/-- The object of `TestUpdateServiceMonitor`: the desired object with nil labels and
annotations. -/
def bareCollector : ServiceMonitor :=
  let c := serviceMonitor sampleInstance sampleLabels
  { c with objectMeta := { c.objectMeta with labels := none, annotations := none } }

/-- A stored object on which a further merge of `desiredSample` changes nothing. -/
def convergedSample : ServiceMonitor :=
  updated desiredSample desiredSample

/-- A second leftover object owned by `sampleInstance`. -/
def staleService : ServiceMonitor :=
  let c := serviceMonitor sampleInstance sampleLabels
  { c with objectMeta := { c.objectMeta with name := "stale-service" } }

/-- An object of another actor that happens to have the derived name: it has a label of its
own, no ownership marker and no owner reference. -/
def foreignCollector : ServiceMonitor :=
  { objectMeta :=
      { name := "my-otelsvc-collector"
        ns := "observability"
        uid := "u9"
        resourceVersion := "41"
        generation := 3
        finalizers := []
        labels := some ((∅ : StrMap).insert "team" "payments")
        annotations := none
        ownerReferences := [] }
    spec :=
      { selector := { matchLabels := some ((∅ : StrMap).insert "app" "billing") }
        endpoints := [{ port := "metrics" }] } }

/-- An object of another actor under a different name. -/
def foreignOther : ServiceMonitor :=
  { foreignCollector with
      objectMeta := { foreignCollector.objectMeta with name := "billing-monitor" } }

/-- An instance whose marker value `<namespace>.<name>` has 71 characters. -/
def longInstance : Instance :=
  { name := String.mk (List.replicate 30 'm'), ns := String.mk (List.replicate 40 'n'),
    uid := "u2", annotations := none }

/-- Common labels for `longInstance`. -/
def longLabels : StrMap :=
  ((∅ : StrMap).insert "app.kubernetes.io/instance" (longInstance.ns ++ "." ++ longInstance.name)).insert
    "app.kubernetes.io/managed-by" "opentelemetry-operator"

/-- An object of another actor in the namespace of `longInstance`, without any ownership
marker. -/
def foreignLong : ServiceMonitor :=
  { foreignCollector with
      objectMeta :=
        { foreignCollector.objectMeta with name := "billing-monitor", ns := longInstance.ns } }

end OtelOperator

namespace OtelOperator

/-! ## Go maps: lookups after a copy loop -/

theorem foldl_insert_lookup (es : List (Sigma (fun _ : String => String)))
    (hes : es.NodupKeys) (dst : StrMap) (k : String) :
    ((es.map (fun e => ((e.1, e.2) : String × String))).foldl
        (fun acc kv => acc.insert kv.1 kv.2) dst).lookup k
      = match List.dlookup k es with
        | some v => some v
        | none => dst.lookup k := by
  induction es generalizing dst with
  | nil => simp
  | cons e es ih =>
    obtain ⟨hnot, hrest⟩ := List.nodupKeys_cons.mp hes
    simp only [List.map_cons, List.foldl_cons]
    rw [ih hrest]
    by_cases hk : k = e.1
    · subst hk
      have hnone : List.dlookup e.1 es = none := List.dlookup_eq_none.mpr hnot
      rw [hnone]
      obtain ⟨a, b⟩ := e
      simp [List.dlookup_cons_eq]
    · have hne : List.dlookup k (e :: es) = List.dlookup k es := by
        obtain ⟨a, b⟩ := e
        exact List.dlookup_cons_ne _ _ hk
      rw [hne]
      cases hl : List.dlookup k es with
      | some v => simp
      | none => simp [AList.lookup_insert_ne hk]

theorem copyInto_lookup (dst : StrMap) (src : GoMap) (k : String) :
    (copyInto dst src).lookup k
      = match src.get? k with
        | some v => some v
        | none => dst.lookup k := by
  cases src with
  | none => simp [copyInto, GoMap.range, GoMap.get?]
  | some l =>
    simp only [copyInto, GoMap.range, GoMap.get?]
    exact foldl_insert_lookup l.entries l.nodupKeys dst k

theorem updated_labels_get (existing desired : ServiceMonitor) (k : String) :
    (updated existing desired).objectMeta.labels.get? k
      = match desired.objectMeta.labels.get? k with
        | some v => some v
        | none => existing.objectMeta.labels.get? k := by
  simp only [updated, GoMap.get?]
  rw [copyInto_lookup]
  cases hex : existing.objectMeta.labels <;> simp [GoMap.get?]

theorem updated_annotations_get (existing desired : ServiceMonitor) (k : String) :
    (updated existing desired).objectMeta.annotations.get? k
      = match desired.objectMeta.annotations.get? k with
        | some v => some v
        | none => existing.objectMeta.annotations.get? k := by
  simp only [updated, GoMap.get?]
  rw [copyInto_lookup]
  cases hex : existing.objectMeta.annotations <;> simp [GoMap.get?]

/-! ## Basic facts about keys and the in-memory store -/

theorem hasKey_iff (ns name : String) (o : ServiceMonitor) :
    hasKey ns name o = true ↔ o.objectMeta.ns = ns ∧ o.objectMeta.name = name := by
  simp [hasKey]

theorem updated_name (e d : ServiceMonitor) :
    (updated e d).objectMeta.name = e.objectMeta.name := rfl

theorem updated_ns (e d : ServiceMonitor) :
    (updated e d).objectMeta.ns = e.objectMeta.ns := rfl

theorem setControllerReference_name (inst : Instance) (o : ServiceMonitor) :
    (setControllerReference inst o).objectMeta.name = o.objectMeta.name := by
  unfold setControllerReference; split <;> rfl

theorem setControllerReference_ns (inst : Instance) (o : ServiceMonitor) :
    (setControllerReference inst o).objectMeta.ns = o.objectMeta.ns := by
  unfold setControllerReference; split <;> rfl

theorem setControllerReference_labels (inst : Instance) (o : ServiceMonitor) :
    (setControllerReference inst o).objectMeta.labels = o.objectMeta.labels := by
  unfold setControllerReference; split <;> rfl

theorem setControllerReference_annotations (inst : Instance) (o : ServiceMonitor) :
    (setControllerReference inst o).objectMeta.annotations = o.objectMeta.annotations := by
  unfold setControllerReference; split <;> rfl

theorem setControllerReference_spec (inst : Instance) (o : ServiceMonitor) :
    (setControllerReference inst o).spec = o.spec := by
  unfold setControllerReference; split <;> rfl

theorem find_hasKey_key {s : Store} {ns name : String} {o : ServiceMonitor}
    (h : s.find? (hasKey ns name) = some o) :
    o.objectMeta.ns = ns ∧ o.objectMeta.name = name :=
  (hasKey_iff ns name o).mp (List.find?_some h)

theorem WF.unique {s : Store} (hs : Store.WF s) {x y : ServiceMonitor} (hx : x ∈ s) (hy : y ∈ s)
    (hns : x.objectMeta.ns = y.objectMeta.ns) (hname : x.objectMeta.name = y.objectMeta.name) :
    x = y :=
  List.inj_on_of_nodup_map hs hx hy (by simp [hns, hname])

theorem WF.find_of_mem {s : Store} (hs : Store.WF s) {o : ServiceMonitor} (ho : o ∈ s) :
    s.find? (hasKey o.objectMeta.ns o.objectMeta.name) = some o := by
  cases h : s.find? (hasKey o.objectMeta.ns o.objectMeta.name) with
  | none =>
    have := List.find?_eq_none.mp h o ho
    simp [hasKey] at this
  | some x =>
    obtain ⟨h1, h2⟩ := find_hasKey_key h
    rw [WF.unique hs (List.mem_of_find?_eq_some h) ho h1 h2]

theorem WF.nodup {s : Store} (hs : Store.WF s) : s.Nodup := List.Nodup.of_map _ hs

theorem WF.sublist {s t : Store} (hs : Store.WF s) (h : t.Sublist s) : Store.WF t :=
  List.Nodup.sublist (List.Sublist.map _ h) hs

/-- One iteration of `reconcileExpectedServiceMonitors` on the in-memory store. -/
theorem expected_mem_cons (inst : Instance) (obj : ServiceMonitor) (rest : List ServiceMonitor)
    (s : Store) (log : List Call) :
    reconcileExpectedServiceMonitors memClient inst (obj :: rest) s log
      = match s.find? (hasKey obj.objectMeta.ns obj.objectMeta.name) with
        | none =>
          reconcileExpectedServiceMonitors memClient inst rest
            (s ++ [setControllerReference inst obj])
            (log ++ [Call.get obj.objectMeta.ns obj.objectMeta.name]
              ++ [Call.create (setControllerReference inst obj)])
        | some e =>
          reconcileExpectedServiceMonitors memClient inst rest
            (s.map (fun x => if hasKey obj.objectMeta.ns obj.objectMeta.name x
              then updated e (setControllerReference inst obj) else x))
            (log ++ [Call.get obj.objectMeta.ns obj.objectMeta.name]
              ++ [Call.update (updated e (setControllerReference inst obj))]) := by
  cases h : s.find? (hasKey obj.objectMeta.ns obj.objectMeta.name) with
  | none =>
    have hany : s.any (hasKey obj.objectMeta.ns obj.objectMeta.name) = false := by
      rw [List.any_eq_false]
      intro x hx
      simpa using List.find?_eq_none.mp h x hx
    simp [reconcileExpectedServiceMonitors, memClient, memGet, memCreate,
      setControllerReference_name, setControllerReference_ns, h, hany, StoreError.isNotFound]
  | some e =>
    obtain ⟨h1, h2⟩ := find_hasKey_key h
    have hany : s.any (hasKey e.objectMeta.ns e.objectMeta.name) = true := by
      rw [List.any_eq_true]
      exact ⟨e, List.mem_of_find?_eq_some h, by simp [hasKey]⟩
    simp [reconcileExpectedServiceMonitors, memClient, memGet, memUpdate,
      setControllerReference_name, setControllerReference_ns, h, hany, updated_name, updated_ns,
      h1, h2]
    have hex : ∃ x ∈ s, hasKey obj.objectMeta.ns obj.objectMeta.name x = true :=
      ⟨e, List.mem_of_find?_eq_some h, List.find?_some h⟩
    rw [if_pos hex]

theorem find_append_other (s : Store) (d : ServiceMonitor) (ns name : String)
    (h : ¬ (d.objectMeta.ns = ns ∧ d.objectMeta.name = name)) :
    (s ++ [d]).find? (hasKey ns name) = s.find? (hasKey ns name) := by
  have hd : hasKey ns name d = false := by
    cases hk : hasKey ns name d with
    | false => rfl
    | true => exact absurd ((hasKey_iff ns name d).mp hk) h
  rw [List.find?_append]
  cases s.find? (hasKey ns name) <;> simp [List.find?, hd]

theorem find_map_other (s : Store) (u : ServiceMonitor) (ns name ns2 name2 : String)
    (hu : u.objectMeta.ns = ns2 ∧ u.objectMeta.name = name2)
    (h : ¬ (ns2 = ns ∧ name2 = name)) :
    (s.map (fun x => if hasKey ns2 name2 x then u else x)).find? (hasKey ns name)
      = s.find? (hasKey ns name) := by
  have hufalse : hasKey ns name u = false := by
    cases hk : hasKey ns name u with
    | false => rfl
    | true =>
      obtain ⟨a, b⟩ := (hasKey_iff ns name u).mp hk
      exact absurd ⟨hu.1.symm.trans a, hu.2.symm.trans b⟩ h
  induction s with
  | nil => rfl
  | cons x xs ih =>
    simp only [List.map_cons, List.find?_cons]
    by_cases hx : hasKey ns2 name2 x = true
    · have hxfalse : hasKey ns name x = false := by
        cases hk : hasKey ns name x with
        | false => rfl
        | true =>
          obtain ⟨a, b⟩ := (hasKey_iff ns name x).mp hk
          obtain ⟨a2, b2⟩ := (hasKey_iff ns2 name2 x).mp hx
          exact absurd ⟨a2.symm.trans a, b2.symm.trans b⟩ h
      simp only [hx, if_true, hufalse, hxfalse]
      exact ih
    · simp only [hx, Bool.false_eq_true, if_false]
      cases hasKey ns name x
      · exact ih
      · rfl

theorem find_map_same (s : Store) (u e : ServiceMonitor) (ns name : String)
    (hu : u.objectMeta.ns = ns ∧ u.objectMeta.name = name)
    (h : s.find? (hasKey ns name) = some e) :
    (s.map (fun x => if hasKey ns name x then u else x)).find? (hasKey ns name) = some u := by
  have hutrue : hasKey ns name u = true := (hasKey_iff ns name u).mpr hu
  induction s with
  | nil => simp at h
  | cons x xs ih =>
    simp only [List.map_cons, List.find?_cons]
    by_cases hx : hasKey ns name x = true
    · simp [hx, hutrue]
    · have hx2 : hasKey ns name x = false := by simpa using hx
      simp only [hx2, Bool.false_eq_true, if_false]
      rw [List.find?_cons, hx2] at h
      exact ih h

/-- On the in-memory store the create/update pass never fails, and it leaves the object found
under any name that is not expected as it was. -/
theorem expected_mem_frame (inst : Instance) (l : List ServiceMonitor) (s : Store)
    (log : List Call) (ns name : String)
    (h : ∀ o ∈ l, ¬ (o.objectMeta.ns = ns ∧ o.objectMeta.name = name)) :
    (reconcileExpectedServiceMonitors memClient inst l s log).err = none ∧
    (reconcileExpectedServiceMonitors memClient inst l s log).state.find? (hasKey ns name)
      = s.find? (hasKey ns name) := by
  induction l generalizing s log with
  | nil => exact ⟨rfl, rfl⟩
  | cons obj rest ih =>
    have hobj := h obj (List.mem_cons_self _ _)
    have hrest : ∀ o ∈ rest, ¬ (o.objectMeta.ns = ns ∧ o.objectMeta.name = name) :=
      fun o ho => h o (List.mem_cons_of_mem _ ho)
    rw [expected_mem_cons]
    cases hf : s.find? (hasKey obj.objectMeta.ns obj.objectMeta.name) with
    | none =>
      simp only []
      obtain ⟨h1, h2⟩ := ih (s ++ [setControllerReference inst obj])
        (log ++ [Call.get obj.objectMeta.ns obj.objectMeta.name]
          ++ [Call.create (setControllerReference inst obj)]) hrest
      refine ⟨h1, h2.trans ?_⟩
      apply find_append_other
      rw [setControllerReference_ns, setControllerReference_name]
      exact hobj
    | some e =>
      simp only []
      obtain ⟨h1, h2⟩ := ih
        (s.map (fun x => if hasKey obj.objectMeta.ns obj.objectMeta.name x
          then updated e (setControllerReference inst obj) else x))
        (log ++ [Call.get obj.objectMeta.ns obj.objectMeta.name]
          ++ [Call.update (updated e (setControllerReference inst obj))]) hrest
      refine ⟨h1, h2.trans ?_⟩
      apply find_map_other
      · exact ⟨(updated_ns _ _).trans (find_hasKey_key hf).1,
          (updated_name _ _).trans (find_hasKey_key hf).2⟩
      · exact hobj

/-- On a well-formed in-memory store, the deletion loop over objects listed from that store
never fails and removes exactly the listed objects for which `del` holds. -/
theorem deleteListed_mem (expected : List ServiceMonitor) (items : List ServiceMonitor)
    (s : Store) (log : List Call) (hs : Store.WF s) (hsub : items.Sublist s) :
    (deleteListed memClient expected items s log).err = none ∧
    (deleteListed memClient expected items s log).state
      = s.filter (fun x => !(del expected x && decide (x ∈ items))) := by
  induction items generalizing s log with
  | nil => simp [deleteListed]
  | cons i rest ih =>
    have hi : i ∈ s := hsub.subset (List.mem_cons_self _ _)
    have hrest : rest.Sublist s := (List.sublist_cons_self i rest).trans hsub
    have hnd : (i :: rest).Nodup := List.Nodup.sublist hsub (WF.nodup hs)
    have hinot : i ∉ rest := (List.nodup_cons.mp hnd).1
    by_cases hd : del expected i = true
    · have hany : s.any (hasKey i.objectMeta.ns i.objectMeta.name) = true := by
        rw [List.any_eq_true]
        exact ⟨i, hi, by simp [hasKey]⟩
      have hstep : deleteListed memClient expected (i :: rest) s log
          = deleteListed memClient expected rest
              (s.filter (fun x => !hasKey i.objectMeta.ns i.objectMeta.name x))
              (log ++ [Call.delete i]) := by
        simp only [deleteListed, hd, if_true, memClient, memDelete, hany]
      have hkey : ∀ x ∈ s, hasKey i.objectMeta.ns i.objectMeta.name x = decide (x = i) := by
        intro x hx
        by_cases hxi : x = i
        · subst hxi; simp [hasKey]
        · have : hasKey i.objectMeta.ns i.objectMeta.name x = false := by
            cases hk : hasKey i.objectMeta.ns i.objectMeta.name x with
            | false => rfl
            | true =>
              obtain ⟨a, b⟩ := (hasKey_iff _ _ x).mp hk
              exact absurd (WF.unique hs hx hi a b) hxi
          simp [this, hxi]
      have hrest2 : rest.Sublist
          (s.filter (fun x => !hasKey i.objectMeta.ns i.objectMeta.name x)) := by
        have hself : rest.filter (fun x => !hasKey i.objectMeta.ns i.objectMeta.name x) = rest := by
          rw [List.filter_eq_self]
          intro x hx
          rw [hkey x (hrest.subset hx)]
          have : x ≠ i := fun hxi => hinot (hxi ▸ hx)
          simp [this]
        rw [← hself]
        exact List.Sublist.filter _ hrest
      obtain ⟨h1, h2⟩ := ih (s.filter (fun x => !hasKey i.objectMeta.ns i.objectMeta.name x))
        (log ++ [Call.delete i]) (WF.sublist hs (List.filter_sublist _)) hrest2
      rw [hstep]
      refine ⟨h1, h2.trans ?_⟩
      rw [List.filter_filter]
      apply List.filter_congr
      intro x hx
      rw [hkey x hx]
      by_cases hxi : x = i
      · subst hxi; simp [hd]
      · simp [hxi]
    · have hd2 : del expected i = false := by simpa using hd
      have hstep : deleteListed memClient expected (i :: rest) s log
          = deleteListed memClient expected rest s log := by
        simp [deleteListed, hd2]
      obtain ⟨h1, h2⟩ := ih s log hs hrest
      rw [hstep]
      refine ⟨h1, h2.trans ?_⟩
      apply List.filter_congr
      intro x _
      by_cases hxi : x = i
      · subst hxi; simp [hd2]
      · simp [hxi]

theorem map_replace_keys (s : Store) (u : ServiceMonitor) (ns name : String)
    (hu : u.objectMeta.ns = ns ∧ u.objectMeta.name = name) :
    (s.map (fun x => if hasKey ns name x then u else x)).map
        (fun o => (o.objectMeta.ns, o.objectMeta.name))
      = s.map (fun o => (o.objectMeta.ns, o.objectMeta.name)) := by
  rw [List.map_map]
  apply List.map_congr_left
  intro x _
  by_cases hx : hasKey ns name x = true
  · obtain ⟨a, b⟩ := (hasKey_iff ns name x).mp hx
    simp [hx, hu.1, hu.2, a, b]
  · simp [hx]

/-- The create/update pass keeps the in-memory store well formed. -/
theorem expected_mem_wf (inst : Instance) (l : List ServiceMonitor) (s : Store)
    (log : List Call) (hs : Store.WF s) :
    Store.WF (reconcileExpectedServiceMonitors memClient inst l s log).state := by
  induction l generalizing s log with
  | nil => exact hs
  | cons obj rest ih =>
    rw [expected_mem_cons]
    cases hf : s.find? (hasKey obj.objectMeta.ns obj.objectMeta.name) with
    | none =>
      simp only []
      apply ih
      unfold Store.WF
      rw [List.map_append, List.map_singleton]
      apply List.Nodup.append hs (List.nodup_singleton _)
      rw [List.disjoint_singleton, setControllerReference_ns, setControllerReference_name]
      intro hmem
      obtain ⟨x, hx, hxe⟩ := List.mem_map.mp hmem
      have hk : hasKey obj.objectMeta.ns obj.objectMeta.name x = true := by
        rw [hasKey_iff]
        exact ⟨congrArg Prod.fst hxe, congrArg Prod.snd hxe⟩
      have := List.find?_eq_none.mp hf x hx
      exact this hk
    | some e =>
      simp only []
      apply ih
      unfold Store.WF
      rw [map_replace_keys]
      · exact hs
      · exact ⟨(updated_ns _ _).trans (find_hasKey_key hf).1,
          (updated_name _ _).trans (find_hasKey_key hf).2⟩

/-- The object found under the name of the single expected object after the create/update
pass on the in-memory store: the desired object when none existed, the merge otherwise. -/
theorem expected_mem_single_find (inst : Instance) (obj : ServiceMonitor) (s : Store)
    (log : List Call) :
    (s.find? (hasKey obj.objectMeta.ns obj.objectMeta.name) = none ∧
      (reconcileExpectedServiceMonitors memClient inst [obj] s log).state
        = s ++ [setControllerReference inst obj] ∧
      (reconcileExpectedServiceMonitors memClient inst [obj] s log).state.find?
          (hasKey obj.objectMeta.ns obj.objectMeta.name)
        = some (setControllerReference inst obj)) ∨
    (∃ e, s.find? (hasKey obj.objectMeta.ns obj.objectMeta.name) = some e ∧
      (reconcileExpectedServiceMonitors memClient inst [obj] s log).state
        = s.map (fun x => if hasKey obj.objectMeta.ns obj.objectMeta.name x
            then updated e (setControllerReference inst obj) else x) ∧
      (reconcileExpectedServiceMonitors memClient inst [obj] s log).state.find?
          (hasKey obj.objectMeta.ns obj.objectMeta.name)
        = some (updated e (setControllerReference inst obj))) := by
  rw [expected_mem_cons]
  cases hf : s.find? (hasKey obj.objectMeta.ns obj.objectMeta.name) with
  | none =>
    left
    refine ⟨rfl, rfl, ?_⟩
    simp only [reconcileExpectedServiceMonitors]
    rw [List.find?_append, hf]
    have hk : hasKey obj.objectMeta.ns obj.objectMeta.name (setControllerReference inst obj)
        = true := by
      rw [hasKey_iff, setControllerReference_ns, setControllerReference_name]
      exact ⟨rfl, rfl⟩
    simp [List.find?, hk]
  | some e =>
    right
    refine ⟨e, rfl, rfl, ?_⟩
    simp only [reconcileExpectedServiceMonitors]
    apply find_map_same _ _ e
    · exact ⟨(updated_ns _ _).trans (find_hasKey_key hf).1,
        (updated_name _ _).trans (find_hasKey_key hf).2⟩
    · exact hf

theorem expected_mem_err (inst : Instance) (l : List ServiceMonitor) (s : Store)
    (log : List Call) :
    (reconcileExpectedServiceMonitors memClient inst l s log).err = none := by
  induction l generalizing s log with
  | nil => rfl
  | cons obj rest ih =>
    rw [expected_mem_cons]
    cases hf : s.find? (hasKey obj.objectMeta.ns obj.objectMeta.name) with
    | none => exact ih _ _
    | some e => exact ih _ _

theorem del_single (keep x : ServiceMonitor) :
    del [keep] x = !(keep.objectMeta.name == x.objectMeta.name
      && keep.objectMeta.ns == x.objectMeta.ns) := by
  simp only [del, List.foldl]
  cases (keep.objectMeta.name == x.objectMeta.name && keep.objectMeta.ns == x.objectMeta.ns) <;>
    rfl

/-- With the flag set, a pass on a well-formed in-memory store never fails; it leaves the
store of the create/update pass without the listed objects that are not expected. -/
theorem reconcile_mem_state (inst : Instance) (cl : StrMap) (s : Store) (hs : Store.WF s) :
    (reconcileServiceMonitor memClient true inst cl s).err = none ∧
    (reconcileServiceMonitor memClient true inst cl s).state
      = (reconcileExpectedServiceMonitors memClient inst [serviceMonitor inst cl] s []).state.filter
          (fun x => !(del [serviceMonitor inst cl] x
            && (x.objectMeta.ns == inst.ns
              && matchesLabels (selectorFromSet (ownershipLabels inst)) x.objectMeta.labels))) := by
  have hE := expected_mem_err inst [serviceMonitor inst cl] s []
  have hwf := expected_mem_wf inst [serviceMonitor inst cl] s [] hs
  have hD := deleteListed_mem [serviceMonitor inst cl]
    ((reconcileExpectedServiceMonitors memClient inst [serviceMonitor inst cl] s []).state.filter
      (fun o => o.objectMeta.ns == inst.ns && matchesLabels (selectorFromSet (ownershipLabels inst)) o.objectMeta.labels))
    (reconcileExpectedServiceMonitors memClient inst [serviceMonitor inst cl] s []).state
    ((reconcileExpectedServiceMonitors memClient inst [serviceMonitor inst cl] s []).calls
      ++ [Call.list inst.ns (selectorFromSet (ownershipLabels inst))])
    hwf (List.filter_sublist _)
  have hlist : ∀ (t : Store) (ns : String) (sel : StrMap),
      memClient.list t ns sel = memList t ns sel := fun _ _ _ => rfl
  simp only [reconcileServiceMonitor, Bool.not_true, Bool.false_eq_true, if_false, hE,
    deleteServiceMonitors, hlist, memList, hD.1, hD.2]
  refine ⟨trivial, ?_⟩
  apply List.filter_congr
  intro x hx
  have hm : decide (x ∈ List.filter
      (fun o => o.objectMeta.ns == inst.ns
        && matchesLabels (selectorFromSet (ownershipLabels inst)) o.objectMeta.labels)
      (reconcileExpectedServiceMonitors memClient inst [serviceMonitor inst cl] s []).state)
      = (x.objectMeta.ns == inst.ns
        && matchesLabels (selectorFromSet (ownershipLabels inst)) x.objectMeta.labels) := by
    cases hq : (x.objectMeta.ns == inst.ns
        && matchesLabels (selectorFromSet (ownershipLabels inst)) x.objectMeta.labels) with
    | false =>
      apply decide_eq_false
      intro hmem
      have := (List.mem_filter.mp hmem).2
      rw [hq] at this
      exact Bool.false_ne_true this
    | true =>
      apply decide_eq_true
      exact List.mem_filter.mpr ⟨hx, hq⟩
  rw [hm]

/-! ## The call log only grows -/

theorem expected_calls_extend {σ : Type} (c : Client σ) (inst : Instance)
    (l : List ServiceMonitor) (s : σ) (log : List Call) :
    log <+: (reconcileExpectedServiceMonitors c inst l s log).calls := by
  induction l generalizing s log with
  | nil => exact List.prefix_refl _
  | cons obj rest ih =>
    simp only [reconcileExpectedServiceMonitors]
    split
    · split
      · split
        · exact (List.prefix_append _ _).trans (List.prefix_append _ _)
        · exact ((List.prefix_append _ _).trans (List.prefix_append _ _)).trans (ih _ _)
      · exact List.prefix_append _ _
    · split
      · exact (List.prefix_append _ _).trans (List.prefix_append _ _)
      · exact ((List.prefix_append _ _).trans (List.prefix_append _ _)).trans (ih _ _)

theorem memGet_ok_iff (s : Store) (ns name : String) (o : ServiceMonitor) :
    (memGet s ns name).1 = Except.ok o ↔ s.find? (hasKey ns name) = some o := by
  unfold memGet
  cases h : s.find? (hasKey ns name) <;> simp

theorem memGet_notFound_iff (s : Store) (ns name : String) :
    (memGet s ns name).1 = Except.error StoreError.notFound
      ↔ s.find? (hasKey ns name) = none := by
  unfold memGet
  cases h : s.find? (hasKey ns name) <;> simp

/-- On the in-memory store, an expected object that existed before the create/update pass is
found afterwards as the merge of the existing object and the tagged expected one. -/
theorem expected_mem_merge (inst : Instance) (l : List ServiceMonitor) (s : Store)
    (log : List Call) (desired existing : ServiceMonitor)
    (hnodup : (l.map (fun o => (o.objectMeta.ns, o.objectMeta.name))).Nodup)
    (hmem : desired ∈ l)
    (hfind : s.find? (hasKey desired.objectMeta.ns desired.objectMeta.name) = some existing) :
    (reconcileExpectedServiceMonitors memClient inst l s log).state.find?
        (hasKey desired.objectMeta.ns desired.objectMeta.name)
      = some (updated existing (setControllerReference inst desired)) := by
  induction l generalizing s log with
  | nil => simp at hmem
  | cons obj rest ih =>
    rw [List.map_cons, List.nodup_cons] at hnodup
    obtain ⟨hnot, hnd⟩ := hnodup
    have hkeys : ∀ o ∈ rest, ¬ (o.objectMeta.ns = obj.objectMeta.ns
        ∧ o.objectMeta.name = obj.objectMeta.name) := by
      intro o ho hk
      apply hnot
      rw [List.mem_map]
      exact ⟨o, ho, by simp [hk.1, hk.2]⟩
    rcases List.mem_cons.mp hmem with heq | hin
    · subst heq
      rw [expected_mem_cons, hfind]
      simp only []
      rw [(expected_mem_frame inst rest _ _ desired.objectMeta.ns desired.objectMeta.name hkeys).2]
      apply find_map_same _ _ existing
      · exact ⟨(updated_ns _ _).trans (find_hasKey_key hfind).1,
          (updated_name _ _).trans (find_hasKey_key hfind).2⟩
      · exact hfind
    · have hne : ¬ (obj.objectMeta.ns = desired.objectMeta.ns
          ∧ obj.objectMeta.name = desired.objectMeta.name) := by
        intro hk
        exact hkeys desired hin ⟨hk.1.symm, hk.2.symm⟩
      rw [expected_mem_cons]
      cases hf : s.find? (hasKey obj.objectMeta.ns obj.objectMeta.name) with
      | none =>
        simp only []
        apply ih _ _ hnd hin
        rw [find_append_other]
        · exact hfind
        · rw [setControllerReference_ns, setControllerReference_name]
          exact hne
      | some e =>
        simp only []
        apply ih _ _ hnd hin
        rw [find_map_other]
        · exact hfind
        · exact ⟨(updated_ns _ _).trans (find_hasKey_key hf).1,
            (updated_name _ _).trans (find_hasKey_key hf).2⟩
        · exact hne

/-! ## The desired object (C3) -/

/-- C3: for every instance and every label set returned by `commonLabels`, whatever it holds
under `app.kubernetes.io/name`, `serviceMonitor` returns an object named
`<instance.Name>-collector`, in the namespace of the instance, with the annotations of the
instance, and whose label `app.kubernetes.io/name` is its own name. -/
theorem serviceMonitor_identity (inst : Instance) (commonLabels : StrMap) :
    (serviceMonitor inst commonLabels).objectMeta.name = inst.name ++ "-collector" ∧
    (serviceMonitor inst commonLabels).objectMeta.ns = inst.ns ∧
    (serviceMonitor inst commonLabels).objectMeta.annotations = inst.annotations ∧
    (serviceMonitor inst commonLabels).objectMeta.labels.get? "app.kubernetes.io/name"
      = some (serviceMonitor inst commonLabels).objectMeta.name := by
  refine ⟨rfl, rfl, rfl, ?_⟩
  simp [serviceMonitor, GoMap.get?]

/-! ## Merge of labels and annotations (C2) -/

/-- C2: on the in-memory store, for every expected object (expected names being distinct) that
matches an existing object by name and namespace, the create/update pass succeeds and the
stored object then has, in its labels, every desired key with the desired value and every other
key with the value of the existing object, a nil map counting as empty; the same holds for its
annotations. -/
theorem merge_is_union (inst : Instance) (expected : List ServiceMonitor) (s : Store)
    (log : List Call) (desired existing : ServiceMonitor)
    (hnodup : (expected.map (fun o => (o.objectMeta.ns, o.objectMeta.name))).Nodup)
    (hmem : desired ∈ expected)
    (hget : (memGet s desired.objectMeta.ns desired.objectMeta.name).1 = Except.ok existing) :
    (reconcileExpectedServiceMonitors memClient inst expected s log).err = none ∧
    ∃ stored,
      (memGet (reconcileExpectedServiceMonitors memClient inst expected s log).state
          desired.objectMeta.ns desired.objectMeta.name).1 = Except.ok stored ∧
      (∀ k v, desired.objectMeta.labels.get? k = some v →
        stored.objectMeta.labels.get? k = some v) ∧
      (∀ k, desired.objectMeta.labels.get? k = none →
        stored.objectMeta.labels.get? k = existing.objectMeta.labels.get? k) ∧
      (∀ k v, desired.objectMeta.annotations.get? k = some v →
        stored.objectMeta.annotations.get? k = some v) ∧
      (∀ k, desired.objectMeta.annotations.get? k = none →
        stored.objectMeta.annotations.get? k = existing.objectMeta.annotations.get? k) := by
  have hfind := (memGet_ok_iff _ _ _ _).mp hget
  refine ⟨expected_mem_err _ _ _ _, updated existing (setControllerReference inst desired),
    (memGet_ok_iff _ _ _ _).mpr (expected_mem_merge inst expected s log desired existing
      hnodup hmem hfind), ?_, ?_, ?_, ?_⟩
  · intro k v hk
    rw [updated_labels_get, setControllerReference_labels, hk]
  · intro k hk
    rw [updated_labels_get, setControllerReference_labels, hk]
  · intro k v hk
    rw [updated_annotations_get, setControllerReference_annotations, hk]
  · intro k hk
    rw [updated_annotations_get, setControllerReference_annotations, hk]

/-- Witness of C2: the case of `TestUpdateServiceMonitor`, an existing object with nil labels
and annotations. -/
theorem merge_is_union_witness :
    (reconcileExpectedServiceMonitors memClient sampleInstance
        [serviceMonitor sampleInstance sampleLabels] [bareCollector] []).err = none ∧
    ∃ stored,
      (memGet (reconcileExpectedServiceMonitors memClient sampleInstance
          [serviceMonitor sampleInstance sampleLabels] [bareCollector] []).state
          (serviceMonitor sampleInstance sampleLabels).objectMeta.ns
          (serviceMonitor sampleInstance sampleLabels).objectMeta.name).1 = Except.ok stored ∧
      (∀ k v, (serviceMonitor sampleInstance sampleLabels).objectMeta.labels.get? k = some v →
        stored.objectMeta.labels.get? k = some v) ∧
      (∀ k, (serviceMonitor sampleInstance sampleLabels).objectMeta.labels.get? k = none →
        stored.objectMeta.labels.get? k = bareCollector.objectMeta.labels.get? k) ∧
      (∀ k v, (serviceMonitor sampleInstance sampleLabels).objectMeta.annotations.get? k = some v →
        stored.objectMeta.annotations.get? k = some v) ∧
      (∀ k, (serviceMonitor sampleInstance sampleLabels).objectMeta.annotations.get? k = none →
        stored.objectMeta.annotations.get? k = bareCollector.objectMeta.annotations.get? k) :=
  merge_is_union sampleInstance [serviceMonitor sampleInstance sampleLabels] [bareCollector] []
    (serviceMonitor sampleInstance sampleLabels) bareCollector
    (List.nodup_singleton _) (List.mem_singleton_self _) rfl

/-! ## The object written by the update path (C10) -/

/-- C10: in every iteration of the create/update pass in which the get returns an existing
object, the call that follows is an update whose object has the spec of the desired object as a
whole and its owner references, while its name, namespace, uid, resource version, generation
and finalizers are those of the existing object. -/
theorem update_path_object {σ : Type} (c : Client σ) (inst : Instance) (obj : ServiceMonitor)
    (rest : List ServiceMonitor) (s s1 : σ) (log : List Call) (existing : ServiceMonitor)
    (hget : c.get s (setControllerReference inst obj).objectMeta.ns
      (setControllerReference inst obj).objectMeta.name = (Except.ok existing, s1)) :
    ∃ written,
      (log ++ [Call.get (setControllerReference inst obj).objectMeta.ns
          (setControllerReference inst obj).objectMeta.name, Call.update written])
        <+: (reconcileExpectedServiceMonitors c inst (obj :: rest) s log).calls ∧
      written.spec = (setControllerReference inst obj).spec ∧
      written.objectMeta.ownerReferences
        = (setControllerReference inst obj).objectMeta.ownerReferences ∧
      written.objectMeta.name = existing.objectMeta.name ∧
      written.objectMeta.ns = existing.objectMeta.ns ∧
      written.objectMeta.uid = existing.objectMeta.uid ∧
      written.objectMeta.resourceVersion = existing.objectMeta.resourceVersion ∧
      written.objectMeta.generation = existing.objectMeta.generation ∧
      written.objectMeta.finalizers = existing.objectMeta.finalizers := by
  refine ⟨updated existing (setControllerReference inst obj), ?_, rfl, rfl, rfl, rfl, rfl, rfl,
    rfl, rfl⟩
  simp only [reconcileExpectedServiceMonitors, hget]
  split
  · simp
  · refine List.IsPrefix.trans ?_ (expected_calls_extend c inst rest _ _)
    simp

/-- Witness of C10: the desired object of the sample instance meets an object of another
actor that has its name. -/
theorem update_path_object_witness :
    ∃ written,
      ([] ++ [Call.get (setControllerReference sampleInstance
            (serviceMonitor sampleInstance sampleLabels)).objectMeta.ns
          (setControllerReference sampleInstance
            (serviceMonitor sampleInstance sampleLabels)).objectMeta.name, Call.update written])
        <+: (reconcileExpectedServiceMonitors memClient sampleInstance
              (serviceMonitor sampleInstance sampleLabels :: []) [foreignCollector] []).calls ∧
      written.spec = (setControllerReference sampleInstance
        (serviceMonitor sampleInstance sampleLabels)).spec ∧
      written.objectMeta.ownerReferences
        = (setControllerReference sampleInstance
            (serviceMonitor sampleInstance sampleLabels)).objectMeta.ownerReferences ∧
      written.objectMeta.name = foreignCollector.objectMeta.name ∧
      written.objectMeta.ns = foreignCollector.objectMeta.ns ∧
      written.objectMeta.uid = foreignCollector.objectMeta.uid ∧
      written.objectMeta.resourceVersion = foreignCollector.objectMeta.resourceVersion ∧
      written.objectMeta.generation = foreignCollector.objectMeta.generation ∧
      written.objectMeta.finalizers = foreignCollector.objectMeta.finalizers :=
  update_path_object memClient sampleInstance (serviceMonitor sampleInstance sampleLabels) []
    [foreignCollector] [foreignCollector] [] foreignCollector rfl

/-! ## The update is unconditional (C9) -/

/-- C9, evaluated on the code: the stored object `convergedSample` is identical to the result
of merging the desired object into it, and the create/update pass still issues an update call
for it. -/
theorem update_issued_on_identical_merge :
    updated convergedSample desiredSample = convergedSample ∧
    (reconcileExpectedServiceMonitors memClient sampleInstance
        [serviceMonitor sampleInstance sampleLabels] [convergedSample] []).calls
      = [Call.get "observability" "my-otelsvc-collector", Call.update convergedSample] ∧
    (reconcileExpectedServiceMonitors memClient sampleInstance
        [serviceMonitor sampleInstance sampleLabels] [convergedSample] []).state
      = [convergedSample] := by
  refine ⟨by rfl, by rfl, by rfl⟩

/-! ## The availability flag (C4) -/

/-- C4 fails as stated: with the flag false, a ServiceMonitor of the instance created by an
earlier pass is still in the store, carrying the ownership markers, after the pass returns. -/
theorem flag_off_keeps_owned_object :
    (reconcileServiceMonitor memClient true sampleInstance sampleLabels []).state
      = [desiredSample] ∧
    (reconcileServiceMonitor memClient false sampleInstance sampleLabels [desiredSample]).err
      = none ∧
    (memList (reconcileServiceMonitor memClient false sampleInstance sampleLabels
        [desiredSample]).state sampleInstance.ns (ownershipLabels sampleInstance)).1
      = Except.ok [desiredSample] := by
  refine ⟨by rfl, by rfl, by rfl⟩

/-- C4 as amended: with the flag false, `reconcileServiceMonitor` returns nil, issues no store
call and leaves the store state as it was, for every client and store state. -/
theorem flag_off_is_noop {σ : Type} (c : Client σ) (inst : Instance) (commonLabels : StrMap)
    (s : σ) :
    (reconcileServiceMonitor c false inst commonLabels s).err = none ∧
    (reconcileServiceMonitor c false inst commonLabels s).state = s ∧
    (reconcileServiceMonitor c false inst commonLabels s).calls = [] :=
  ⟨rfl, rfl, rfl⟩

/-! ## A create that reports already-exists (C7) -/

/-- C7 fails as stated: another actor creates the object between the get and the create of
the pass; the pass returns an error and its calls are the get and the create only, with no
second get and no update. -/
theorem create_race_returns_error :
    (reconcileExpectedServiceMonitors racyClient sampleInstance
        [serviceMonitor sampleInstance sampleLabels]
        ([], [Mutation.put foreignCollector]) []).err
      = some (ReconcileError.failedToCreate StoreError.alreadyExists) ∧
    (reconcileExpectedServiceMonitors racyClient sampleInstance
        [serviceMonitor sampleInstance sampleLabels]
        ([], [Mutation.put foreignCollector]) []).calls
      = [Call.get "observability" "my-otelsvc-collector", Call.create desiredSample] := by
  refine ⟨by rfl, by rfl⟩

/-- C7 as amended: for every client, when the get of a desired ServiceMonitor reports
not-found and the following create reports already-exists, the pass returns the error
"failed to create" with that cause, right after the create: it issues no further call. -/
theorem create_already_exists_fails {σ : Type} (c : Client σ) (inst : Instance)
    (obj : ServiceMonitor) (rest : List ServiceMonitor) (s s1 s2 : σ) (log : List Call)
    (hget : c.get s (setControllerReference inst obj).objectMeta.ns
      (setControllerReference inst obj).objectMeta.name
        = (Except.error StoreError.notFound, s1))
    (hcreate : c.create s1 (setControllerReference inst obj)
      = (some StoreError.alreadyExists, s2)) :
    (reconcileExpectedServiceMonitors c inst (obj :: rest) s log).err
      = some (ReconcileError.failedToCreate StoreError.alreadyExists) ∧
    (reconcileExpectedServiceMonitors c inst (obj :: rest) s log).state = s2 ∧
    (reconcileExpectedServiceMonitors c inst (obj :: rest) s log).calls
      = log ++ [Call.get (setControllerReference inst obj).objectMeta.ns
          (setControllerReference inst obj).objectMeta.name]
        ++ [Call.create (setControllerReference inst obj)] := by
  simp [reconcileExpectedServiceMonitors, hget, hcreate, StoreError.isNotFound]

/-- Witness of the amended C7: another actor creates the object between the get and the
create. -/
theorem create_already_exists_fails_witness :
    (reconcileExpectedServiceMonitors racyClient sampleInstance
        (serviceMonitor sampleInstance sampleLabels :: [])
        ([], [Mutation.put foreignCollector]) []).err
      = some (ReconcileError.failedToCreate StoreError.alreadyExists) ∧
    (reconcileExpectedServiceMonitors racyClient sampleInstance
        (serviceMonitor sampleInstance sampleLabels :: [])
        ([], [Mutation.put foreignCollector]) []).state = ([foreignCollector], []) ∧
    (reconcileExpectedServiceMonitors racyClient sampleInstance
        (serviceMonitor sampleInstance sampleLabels :: [])
        ([], [Mutation.put foreignCollector]) []).calls
      = [] ++ [Call.get (setControllerReference sampleInstance
            (serviceMonitor sampleInstance sampleLabels)).objectMeta.ns
          (setControllerReference sampleInstance
            (serviceMonitor sampleInstance sampleLabels)).objectMeta.name]
        ++ [Call.create (setControllerReference sampleInstance
            (serviceMonitor sampleInstance sampleLabels))] :=
  create_already_exists_fails racyClient sampleInstance
    (serviceMonitor sampleInstance sampleLabels) [] ([], [Mutation.put foreignCollector])
    ([foreignCollector], []) ([foreignCollector], []) [] rfl rfl

/-! ## A delete that reports not-found (C8) -/

/-- C8 fails as stated: two leftover objects of the instance are listed, another actor
removes the first one right after the list, and the delete of it reports not-found; the pass
returns an error and the second leftover object is still in the store. -/
theorem delete_race_returns_error :
    (deleteServiceMonitors racyClient sampleInstance
        [serviceMonitor sampleInstance sampleLabels]
        ([extraService, staleService], [Mutation.remove "observability" "extra-service"])
        []).err
      = some (ReconcileError.failedToDelete StoreError.notFound) ∧
    (deleteServiceMonitors racyClient sampleInstance
        [serviceMonitor sampleInstance sampleLabels]
        ([extraService, staleService], [Mutation.remove "observability" "extra-service"])
        []).calls
      = [Call.list "observability" (ownershipLabels sampleInstance),
          Call.delete extraService] ∧
    (deleteServiceMonitors racyClient sampleInstance
        [serviceMonitor sampleInstance sampleLabels]
        ([extraService, staleService], [Mutation.remove "observability" "extra-service"])
        []).state.1
      = [staleService] ∧
    del [serviceMonitor sampleInstance sampleLabels] staleService = true := by
  refine ⟨by rfl, by rfl, by rfl, by rfl⟩

/-- C8 as amended: for every client, when the delete of a listed ServiceMonitor that is not
in the desired set reports not-found, the deletion loop returns the error "failed to delete"
with that cause right after that delete: the remaining listed objects are not processed. -/
theorem delete_not_found_fails {σ : Type} (c : Client σ) (expected : List ServiceMonitor)
    (existing : ServiceMonitor) (rest : List ServiceMonitor) (s s1 : σ) (log : List Call)
    (hdel : del expected existing = true)
    (hdelete : c.delete s existing = (some StoreError.notFound, s1)) :
    (deleteListed c expected (existing :: rest) s log).err
      = some (ReconcileError.failedToDelete StoreError.notFound) ∧
    (deleteListed c expected (existing :: rest) s log).state = s1 ∧
    (deleteListed c expected (existing :: rest) s log).calls
      = log ++ [Call.delete existing] := by
  simp [deleteListed, hdel, hdelete]

/-- Witness of the amended C8: the loop is entered after another actor removed the first
listed object. -/
theorem delete_not_found_fails_witness :
    (deleteListed racyClient [serviceMonitor sampleInstance sampleLabels]
        (extraService :: [staleService]) ([staleService], []) []).err
      = some (ReconcileError.failedToDelete StoreError.notFound) ∧
    (deleteListed racyClient [serviceMonitor sampleInstance sampleLabels]
        (extraService :: [staleService]) ([staleService], []) []).state
      = ([staleService], []) ∧
    (deleteListed racyClient [serviceMonitor sampleInstance sampleLabels]
        (extraService :: [staleService]) ([staleService], []) []).calls
      = [] ++ [Call.delete extraService] :=
  delete_not_found_fails racyClient [serviceMonitor sampleInstance sampleLabels] extraService
    [staleService] ([staleService], []) ([staleService], []) [] (by rfl) (by rfl)

/-! ## Ownership markers -/

theorem carriesMarkers_iff (inst : Instance) (o : ServiceMonitor) :
    carriesMarkers inst o = true ↔
      o.objectMeta.labels.get? "app.kubernetes.io/instance" = some (inst.ns ++ "." ++ inst.name) ∧
      o.objectMeta.labels.get? "app.kubernetes.io/managed-by" = some "opentelemetry-operator" := by
  simp [carriesMarkers, matchesLabels, ownershipLabels, AList.insert_entries]
  exact And.comm

theorem matchesLabels_empty (labels : GoMap) : matchesLabels ∅ labels = true := rfl

theorem selectorFromSet_eq_or (ls : StrMap) :
    selectorFromSet ls = ls ∨ selectorFromSet ls = ∅ := by
  unfold selectorFromSet
  split
  · exact Or.inl rfl
  · exact Or.inr rfl

/-- An object that carries the ownership markers is matched by the selector of the deletion
pass, whether or not the marker value is a valid label value. -/
theorem matches_selector_of_carries (inst : Instance) (x : ServiceMonitor)
    (h : carriesMarkers inst x = true) :
    matchesLabels (selectorFromSet (ownershipLabels inst)) x.objectMeta.labels = true := by
  rcases selectorFromSet_eq_or (ownershipLabels inst) with h1 | h1
  · rw [h1]; exact h
  · rw [h1]; exact matchesLabels_empty _

/-- When the marker value `<namespace>.<name>` is a valid label value, the selector of the
deletion pass is the set of ownership markers. -/
theorem selectorFromSet_ownership (inst : Instance)
    (h : isValidLabelValue (inst.ns ++ "." ++ inst.name) = true) :
    selectorFromSet (ownershipLabels inst) = ownershipLabels inst := by
  have hk1 : isQualifiedName "app.kubernetes.io/managed-by" = true := by rfl
  have hk2 : isQualifiedName "app.kubernetes.io/instance" = true := by rfl
  have hv1 : isValidLabelValue "opentelemetry-operator" = true := by rfl
  unfold selectorFromSet
  rw [if_pos]
  simp [ownershipLabels, AList.insert_entries, hk1, hk2, hv1, h]

theorem desired_carriesMarkers (inst : Instance) (cl : StrMap)
    (hinst : cl.lookup "app.kubernetes.io/instance" = some (inst.ns ++ "." ++ inst.name))
    (hmgr : cl.lookup "app.kubernetes.io/managed-by" = some "opentelemetry-operator") :
    carriesMarkers inst (setControllerReference inst (serviceMonitor inst cl)) = true := by
  rw [carriesMarkers_iff, setControllerReference_labels]
  have h1 : ("app.kubernetes.io/instance" : String) ≠ "app.kubernetes.io/name" := by decide
  have h2 : ("app.kubernetes.io/managed-by" : String) ≠ "app.kubernetes.io/name" := by decide
  simp only [serviceMonitor, GoMap.get?]
  rw [AList.lookup_insert_ne h1, AList.lookup_insert_ne h2]
  exact ⟨hinst, hmgr⟩

theorem updated_carriesMarkers (inst : Instance) (e d : ServiceMonitor)
    (hd : carriesMarkers inst d = true) : carriesMarkers inst (updated e d) = true := by
  rw [carriesMarkers_iff] at hd ⊢
  rw [updated_labels_get, updated_labels_get, hd.1, hd.2]
  exact ⟨rfl, rfl⟩

theorem del_single_false_iff (keep x : ServiceMonitor) :
    del [keep] x = false ↔
      x.objectMeta.ns = keep.objectMeta.ns ∧ x.objectMeta.name = keep.objectMeta.name := by
  rw [del_single]
  simp only [Bool.not_eq_false_eq_eq_true, Bool.and_eq_true, beq_iff_eq]
  constructor
  · rintro ⟨a, b⟩; exact ⟨b.symm, a.symm⟩
  · rintro ⟨a, b⟩; exact ⟨b.symm, a.symm⟩

/-- The object found under the derived name after the create/update pass, with what is known
about it. -/
theorem expected_mem_desired (inst : Instance) (cl : StrMap) (s : Store) :
    ∃ o1, (reconcileExpectedServiceMonitors memClient inst [serviceMonitor inst cl] s []).state.find?
        (hasKey inst.ns (inst.name ++ "-collector")) = some o1 ∧
      ((s.find? (hasKey inst.ns (inst.name ++ "-collector")) = none ∧
          o1 = setControllerReference inst (serviceMonitor inst cl)) ∨
        (∃ e, s.find? (hasKey inst.ns (inst.name ++ "-collector")) = some e ∧
          o1 = updated e (setControllerReference inst (serviceMonitor inst cl)))) := by
  rcases expected_mem_single_find inst (serviceMonitor inst cl) s [] with
    ⟨h1, _, h3⟩ | ⟨e, h1, _, h3⟩
  · exact ⟨_, h3, Or.inl ⟨h1, rfl⟩⟩
  · exact ⟨_, h3, Or.inr ⟨e, h1, rfl⟩⟩

/-! ## Garbage collection (C1) -/

/-- C1: on a well-formed in-memory store, with the flag true and common labels that carry the
two ownership markers of the instance, `reconcileServiceMonitor` returns nil, the
ServiceMonitors of the namespace of the instance that carry the markers are then exactly one
object, named `<name>-collector`, and every other such object present before the call is no
longer found. -/
theorem reconcile_leaves_single_owned (inst : Instance) (commonLabels : StrMap) (s : Store)
    (hs : Store.WF s)
    (hinst : commonLabels.lookup "app.kubernetes.io/instance"
      = some (inst.ns ++ "." ++ inst.name))
    (hmgr : commonLabels.lookup "app.kubernetes.io/managed-by" = some "opentelemetry-operator") :
    (reconcileServiceMonitor memClient true inst commonLabels s).err = none ∧
    (∃ o, (memList (reconcileServiceMonitor memClient true inst commonLabels s).state inst.ns
          (ownershipLabels inst)).1 = Except.ok [o] ∧
        o.objectMeta.name = inst.name ++ "-collector") ∧
    (∀ o ∈ s, o.objectMeta.ns = inst.ns → carriesMarkers inst o = true →
      o.objectMeta.name ≠ inst.name ++ "-collector" →
      (memGet (reconcileServiceMonitor memClient true inst commonLabels s).state
        o.objectMeta.ns o.objectMeta.name).1 = Except.error StoreError.notFound) := by
  obtain ⟨herr, hstate⟩ := reconcile_mem_state inst commonLabels s hs
  have hwfE := expected_mem_wf inst [serviceMonitor inst commonLabels] s [] hs
  obtain ⟨o1, hfind, hcase⟩ := expected_mem_desired inst commonLabels s
  have ho1E := List.mem_of_find?_eq_some hfind
  obtain ⟨ho1ns, ho1name⟩ := find_hasKey_key hfind
  have hd := desired_carriesMarkers inst commonLabels hinst hmgr
  have ho1m : carriesMarkers inst o1 = true := by
    rcases hcase with ⟨_, h⟩ | ⟨e, _, h⟩
    · rw [h]; exact hd
    · rw [h]; exact updated_carriesMarkers inst e _ hd
  have ho1del : del [serviceMonitor inst commonLabels] o1 = false :=
    (del_single_false_iff _ _).mpr ⟨ho1ns, ho1name⟩
  refine ⟨herr, ⟨o1, ?_, ho1name⟩, ?_⟩
  · show Except.ok (List.filter _ _) = Except.ok [o1]
    congr 1
    rw [hstate]
    apply List.perm_singleton.mp
    rw [List.perm_ext_iff_of_nodup
      (List.Nodup.filter _ (List.Nodup.filter _ (WF.nodup hwfE))) (List.nodup_singleton _)]
    intro x
    simp only [List.mem_filter, List.mem_singleton, Bool.and_eq_true, Bool.not_eq_true',
      Bool.and_eq_false_imp, beq_iff_eq]
    constructor
    · rintro ⟨⟨hxE, hkeep⟩, hxns, hxm⟩
      have hxdel : del [serviceMonitor inst commonLabels] x = false := by
        cases hdx : del [serviceMonitor inst commonLabels] x with
        | false => rfl
        | true =>
          have := hkeep hdx hxns
          rw [matches_selector_of_carries inst x hxm] at this
          exact absurd this (by simp)
      obtain ⟨a, b⟩ := (del_single_false_iff _ _).mp hxdel
      exact WF.unique hwfE hxE ho1E (a.trans ho1ns.symm) (b.trans ho1name.symm)
    · rintro rfl
      refine ⟨⟨ho1E, ?_⟩, ho1ns, ho1m⟩
      intro hdx
      rw [ho1del] at hdx
      exact absurd hdx Bool.false_ne_true
  · intro o ho hons hom honame
    rw [memGet_notFound_iff]
    cases hf : (reconcileServiceMonitor memClient true inst commonLabels s).state.find?
        (hasKey o.objectMeta.ns o.objectMeta.name) with
    | none => rfl
    | some x =>
      exfalso
      have hx := List.mem_of_find?_eq_some hf
      obtain ⟨hxns, hxname⟩ := find_hasKey_key hf
      rw [hstate, List.mem_filter] at hx
      obtain ⟨hxE, hkeep⟩ := hx
      have hframe := (expected_mem_frame inst [serviceMonitor inst commonLabels] s []
        o.objectMeta.ns o.objectMeta.name (by
          intro o' ho' hk
          rw [List.mem_singleton] at ho'
          subst ho'
          exact honame hk.2.symm)).2
      rw [WF.find_of_mem hs ho] at hframe
      have hoE := List.mem_of_find?_eq_some hframe
      have hxo : x = o := WF.unique hwfE hxE hoE hxns hxname
      subst hxo
      have hdel : del [serviceMonitor inst commonLabels] x = true := by
        cases hdx : del [serviceMonitor inst commonLabels] x with
        | true => rfl
        | false => exact absurd ((del_single_false_iff _ _).mp hdx).2 honame
      simp [hdel, hons, matches_selector_of_carries inst x hom] at hkeep

/-- Witness of C1: the case of `TestDeleteExtraServiceMonitor`. -/
theorem reconcile_leaves_single_owned_witness :
    (reconcileServiceMonitor memClient true sampleInstance sampleLabels [extraService]).err
      = none ∧
    (∃ o, (memList (reconcileServiceMonitor memClient true sampleInstance sampleLabels
            [extraService]).state sampleInstance.ns (ownershipLabels sampleInstance)).1
          = Except.ok [o] ∧
        o.objectMeta.name = sampleInstance.name ++ "-collector") ∧
    (∀ o ∈ [extraService], o.objectMeta.ns = sampleInstance.ns →
      carriesMarkers sampleInstance o = true →
      o.objectMeta.name ≠ sampleInstance.name ++ "-collector" →
      (memGet (reconcileServiceMonitor memClient true sampleInstance sampleLabels
          [extraService]).state o.objectMeta.ns o.objectMeta.name).1
        = Except.error StoreError.notFound) :=
  reconcile_leaves_single_owned sampleInstance sampleLabels [extraService]
    (List.nodup_singleton _) (by rfl) (by rfl)

/-! ## Objects without the ownership markers (C5) -/

/-- C5 fails as stated: an object of another actor that has the derived name and no ownership
marker is rewritten by a pass; it is stored with the owner reference of the instance. -/
theorem unowned_collision_is_updated :
    carriesMarkers sampleInstance foreignCollector = false ∧
    (memGet (reconcileServiceMonitor memClient true sampleInstance sampleLabels
        [foreignCollector]).state "observability" "my-otelsvc-collector").1
      = Except.ok (updated foreignCollector desiredSample) ∧
    (updated foreignCollector desiredSample).objectMeta.ownerReferences
      = [controllerRef sampleInstance] ∧
    foreignCollector.objectMeta.ownerReferences = [] ∧
    (updated foreignCollector desiredSample).spec.endpoints ≠ foreignCollector.spec.endpoints := by
  refine ⟨by rfl, by rfl, by rfl, by rfl, by decide⟩

/-- C5 as amended: on a well-formed in-memory store, a ServiceMonitor that does not carry the
ownership markers of the instance and whose namespace and name are not those of the desired
object is identical before and after `reconcileServiceMonitor`, provided that it lives in
another namespace or that the marker value `<namespace>.<name>` is a valid label value; one
that has the namespace and name of the desired object is not deleted: with the flag true it is
replaced by the merge of the desired object into it, with the flag false it is left as it
is. -/
theorem unowned_kept_unless_collision (avail : Bool) (inst : Instance) (commonLabels : StrMap)
    (s : Store) (o : ServiceMonitor) (hs : Store.WF s) (ho : o ∈ s)
    (hm : carriesMarkers inst o = false) :
    (¬ (o.objectMeta.ns = inst.ns ∧ o.objectMeta.name = inst.name ++ "-collector") →
      (o.objectMeta.ns ≠ inst.ns ∨ isValidLabelValue (inst.ns ++ "." ++ inst.name) = true) →
      (memGet (reconcileServiceMonitor memClient avail inst commonLabels s).state
        o.objectMeta.ns o.objectMeta.name).1 = Except.ok o) ∧
    ((o.objectMeta.ns = inst.ns ∧ o.objectMeta.name = inst.name ++ "-collector") →
      (memGet (reconcileServiceMonitor memClient true inst commonLabels s).state
        o.objectMeta.ns o.objectMeta.name).1
        = Except.ok (updated o (setControllerReference inst (serviceMonitor inst commonLabels))) ∧
      (memGet (reconcileServiceMonitor memClient false inst commonLabels s).state
        o.objectMeta.ns o.objectMeta.name).1 = Except.ok o) := by
  have hoff : (memGet (reconcileServiceMonitor memClient false inst commonLabels s).state
      o.objectMeta.ns o.objectMeta.name).1 = Except.ok o :=
    (memGet_ok_iff _ _ _ _).mpr (WF.find_of_mem hs ho)
  obtain ⟨_, hstate⟩ := reconcile_mem_state inst commonLabels s hs
  have hwfE := expected_mem_wf inst [serviceMonitor inst commonLabels] s [] hs
  have hwfF : Store.WF (reconcileServiceMonitor memClient true inst commonLabels s).state := by
    rw [hstate]
    exact WF.sublist hwfE (List.filter_sublist _)
  constructor
  · intro hkey hsel
    cases avail with
    | false => exact hoff
    | true =>
      rw [memGet_ok_iff]
      apply WF.find_of_mem hwfF
      rw [hstate, List.mem_filter]
      constructor
      · have hframe := (expected_mem_frame inst [serviceMonitor inst commonLabels] s []
          o.objectMeta.ns o.objectMeta.name (by
            intro o' ho' hk
            rw [List.mem_singleton] at ho'
            subst ho'
            exact hkey ⟨hk.1.symm, hk.2.symm⟩)).2
        rw [WF.find_of_mem hs ho] at hframe
        exact List.mem_of_find?_eq_some hframe
      · rcases hsel with hns | hvalid
        · simp [hns]
        · rw [selectorFromSet_ownership inst hvalid]
          have hm2 : matchesLabels (ownershipLabels inst) o.objectMeta.labels = false := hm
          simp [hm2]
  · intro hkey
    refine ⟨?_, hoff⟩
    obtain ⟨o1, hfind, hcase⟩ := expected_mem_desired inst commonLabels s
    have hso : s.find? (hasKey inst.ns (inst.name ++ "-collector")) = some o := by
      have := WF.find_of_mem hs ho
      rwa [hkey.1, hkey.2] at this
    have ho1 : o1 = updated o (setControllerReference inst (serviceMonitor inst commonLabels)) := by
      rcases hcase with ⟨h, _⟩ | ⟨e, h, h2⟩
      · rw [hso] at h; exact absurd h (by simp)
      · rw [hso] at h
        rw [h2, ← Option.some.inj h]
    obtain ⟨ho1ns, ho1name⟩ := find_hasKey_key hfind
    have ho1del : del [serviceMonitor inst commonLabels] o1 = false :=
      (del_single_false_iff _ _).mpr ⟨ho1ns, ho1name⟩
    have ho1F : o1 ∈ (reconcileServiceMonitor memClient true inst commonLabels s).state := by
      rw [hstate, List.mem_filter]
      exact ⟨List.mem_of_find?_eq_some hfind, by simp [ho1del]⟩
    rw [memGet_ok_iff, ← ho1]
    have := WF.find_of_mem hwfF ho1F
    rwa [ho1ns, ho1name, ← hkey.1, ← hkey.2] at this

/-- Witness of the amended C5: a store with two objects of another actor and an instance whose
marker value is a valid label value; the object under another name is left as it is, the one
under the derived name is replaced by the merge. -/
theorem unowned_kept_unless_collision_witness :
    (memGet (reconcileServiceMonitor memClient true sampleInstance sampleLabels
        [foreignCollector, foreignOther]).state
      foreignOther.objectMeta.ns foreignOther.objectMeta.name).1 = Except.ok foreignOther ∧
    (memGet (reconcileServiceMonitor memClient true sampleInstance sampleLabels
        [foreignCollector, foreignOther]).state
      foreignCollector.objectMeta.ns foreignCollector.objectMeta.name).1
      = Except.ok (updated foreignCollector
          (setControllerReference sampleInstance (serviceMonitor sampleInstance sampleLabels))) :=
  ⟨(unowned_kept_unless_collision true sampleInstance sampleLabels
      [foreignCollector, foreignOther] foreignOther (by unfold Store.WF; decide) (by simp)
      (by rfl)).1 (by decide) (Or.inr (by rfl)),
    ((unowned_kept_unless_collision true sampleInstance sampleLabels
      [foreignCollector, foreignOther] foreignCollector (by unfold Store.WF; decide) (by simp)
      (by rfl)).2 ⟨rfl, rfl⟩).1⟩

/-- The selector of the deletion pass when the marker value is not a valid label value: for an
instance whose `<namespace>.<name>` has 71 characters the selector has no requirement, the
list returns every ServiceMonitor of the namespace, and an object of another actor without any
ownership marker is deleted. -/
theorem invalid_marker_value_lists_everything :
    isValidLabelValue (longInstance.ns ++ "." ++ longInstance.name) = false ∧
    selectorFromSet (ownershipLabels longInstance) = ∅ ∧
    carriesMarkers longInstance foreignLong = false ∧
    (reconcileServiceMonitor memClient true longInstance longLabels [foreignLong]).err = none ∧
    (reconcileServiceMonitor memClient true longInstance longLabels [foreignLong]).calls
      = [Call.get longInstance.ns (longInstance.name ++ "-collector"),
          Call.create (setControllerReference longInstance
            (serviceMonitor longInstance longLabels)),
          Call.list longInstance.ns ∅,
          Call.delete foreignLong] ∧
    (memGet (reconcileServiceMonitor memClient true longInstance longLabels [foreignLong]).state
      longInstance.ns "billing-monitor").1 = Except.error StoreError.notFound := by
  refine ⟨by rfl, by rfl, by rfl, by rfl, by rfl, by rfl⟩

/-! ## Idempotence (C6) -/

theorem sameContent_refl (a : ServiceMonitor) : SameContent a a :=
  ⟨rfl, rfl, rfl, rfl, rfl, rfl, fun _ => rfl, fun _ => rfl, rfl, rfl⟩

theorem sameContent_updated_self (d : ServiceMonitor) : SameContent (updated d d) d := by
  refine ⟨rfl, rfl, rfl, rfl, rfl, rfl, ?_, ?_, rfl, rfl⟩
  · intro k
    rw [updated_labels_get]
    cases d.objectMeta.labels.get? k <;> rfl
  · intro k
    rw [updated_annotations_get]
    cases d.objectMeta.annotations.get? k <;> rfl

theorem sameContent_updated_updated (e d : ServiceMonitor) :
    SameContent (updated (updated e d) d) (updated e d) := by
  refine ⟨rfl, rfl, rfl, rfl, rfl, rfl, ?_, ?_, rfl, rfl⟩
  · intro k
    rw [updated_labels_get, updated_labels_get]
    cases d.objectMeta.labels.get? k <;> rfl
  · intro k
    rw [updated_annotations_get, updated_annotations_get]
    cases d.objectMeta.annotations.get? k <;> rfl

/-- C6: on a well-formed in-memory store, two calls of `reconcileServiceMonitor` in a row for
the same instance both return nil, and the store after the second call holds the same objects
in the same places as after the first, each with the same name, namespace, label entries,
annotation entries, spec, owner references and other metadata, and with no two objects of one
name in a namespace. -/
theorem reconcile_twice_same_content (avail : Bool) (inst : Instance) (commonLabels : StrMap)
    (s : Store) (hs : Store.WF s) :
    (reconcileServiceMonitor memClient avail inst commonLabels s).err = none ∧
    (reconcileServiceMonitor memClient avail inst commonLabels
      (reconcileServiceMonitor memClient avail inst commonLabels s).state).err = none ∧
    List.Forall₂ SameContent
      (reconcileServiceMonitor memClient avail inst commonLabels
        (reconcileServiceMonitor memClient avail inst commonLabels s).state).state
      (reconcileServiceMonitor memClient avail inst commonLabels s).state ∧
    Store.WF (reconcileServiceMonitor memClient avail inst commonLabels
      (reconcileServiceMonitor memClient avail inst commonLabels s).state).state := by
  cases avail with
  | false =>
    refine ⟨rfl, rfl, ?_, hs⟩
    exact List.forall₂_same.mpr (fun x _ => sameContent_refl x)
  | true =>
    obtain ⟨herr1, hstate1⟩ := reconcile_mem_state inst commonLabels s hs
    have hwfE1 := expected_mem_wf inst [serviceMonitor inst commonLabels] s [] hs
    have hwfF : Store.WF (reconcileServiceMonitor memClient true inst commonLabels s).state := by
      rw [hstate1]
      exact WF.sublist hwfE1 (List.filter_sublist _)
    obtain ⟨herr2, hstate2⟩ := reconcile_mem_state inst commonLabels _ hwfF
    have hwfE2 := expected_mem_wf inst [serviceMonitor inst commonLabels]
      (reconcileServiceMonitor memClient true inst commonLabels s).state [] hwfF
    have hwf2 : Store.WF (reconcileServiceMonitor memClient true inst commonLabels
        (reconcileServiceMonitor memClient true inst commonLabels s).state).state := by
      rw [hstate2]
      exact WF.sublist hwfE2 (List.filter_sublist _)
    refine ⟨herr1, herr2, ?_, hwf2⟩
    -- the object under the derived name after the first call
    obtain ⟨o1, hfind1, hcase1⟩ := expected_mem_desired inst commonLabels s
    obtain ⟨ho1ns, ho1name⟩ := find_hasKey_key hfind1
    have ho1del : del [serviceMonitor inst commonLabels] o1 = false :=
      (del_single_false_iff _ _).mpr ⟨ho1ns, ho1name⟩
    have ho1F : o1 ∈ (reconcileServiceMonitor memClient true inst commonLabels s).state := by
      rw [hstate1, List.mem_filter]
      exact ⟨List.mem_of_find?_eq_some hfind1, by simp [ho1del]⟩
    have hfindF : (reconcileServiceMonitor memClient true inst commonLabels s).state.find?
        (hasKey inst.ns (inst.name ++ "-collector")) = some o1 := by
      have := WF.find_of_mem hwfF ho1F
      rwa [ho1ns, ho1name] at this
    have hsame : SameContent
        (updated o1 (setControllerReference inst (serviceMonitor inst commonLabels))) o1 := by
      rcases hcase1 with ⟨_, h⟩ | ⟨e, _, h⟩
      · rw [h]; exact sameContent_updated_self _
      · rw [h]; exact sameContent_updated_updated _ _
    -- the create/update pass of the second call
    have hE2 : (reconcileExpectedServiceMonitors memClient inst [serviceMonitor inst commonLabels]
          (reconcileServiceMonitor memClient true inst commonLabels s).state []).state
        = (reconcileServiceMonitor memClient true inst commonLabels s).state.map
            (fun x => if hasKey inst.ns (inst.name ++ "-collector") x
              then updated o1 (setControllerReference inst (serviceMonitor inst commonLabels))
              else x) := by
      rcases expected_mem_single_find inst (serviceMonitor inst commonLabels)
          (reconcileServiceMonitor memClient true inst commonLabels s).state [] with
        ⟨h1, _, _⟩ | ⟨e, h1, h2, _⟩
      · have h1' : (reconcileServiceMonitor memClient true inst commonLabels s).state.find?
            (hasKey inst.ns (inst.name ++ "-collector")) = none := h1
        rw [hfindF] at h1'
        exact absurd h1' (by simp)
      · have h1' : (reconcileServiceMonitor memClient true inst commonLabels s).state.find?
            (hasKey inst.ns (inst.name ++ "-collector")) = some e := h1
        rw [hfindF] at h1'
        rw [h2, ← Option.some.inj h1']
        rfl
    -- the deletion pass of the second call removes nothing
    have hkeep : ∀ x ∈ (reconcileServiceMonitor memClient true inst commonLabels s).state.map
          (fun x => if hasKey inst.ns (inst.name ++ "-collector") x
            then updated o1 (setControllerReference inst (serviceMonitor inst commonLabels))
            else x),
        (!(del [serviceMonitor inst commonLabels] x
          && (x.objectMeta.ns == inst.ns
            && matchesLabels (selectorFromSet (ownershipLabels inst)) x.objectMeta.labels)))
          = true := by
      intro x hx
      obtain ⟨y, hy, hxy⟩ := List.mem_map.mp hx
      by_cases hk : hasKey inst.ns (inst.name ++ "-collector") y = true
      · rw [if_pos hk] at hxy
        have hyo : y = o1 := by
          have := List.mem_of_find?_eq_some hfindF
          obtain ⟨a, b⟩ := (hasKey_iff _ _ _).mp hk
          exact WF.unique hwfF hy this (a.trans ho1ns.symm) (b.trans ho1name.symm)
        have hxdel : del [serviceMonitor inst commonLabels] x = false := by
          rw [← hxy]
          exact (del_single_false_iff _ _).mpr
            ⟨(updated_ns _ _).trans ho1ns, (updated_name _ _).trans ho1name⟩
        simp [hxdel]
      · rw [if_neg hk] at hxy
        subst hxy
        rw [hstate1, List.mem_filter] at hy
        exact hy.2
    rw [hstate2, hE2, List.filter_eq_self.mpr hkeep, List.forall₂_map_left_iff,
      List.forall₂_same]
    intro y hy
    by_cases hk : hasKey inst.ns (inst.name ++ "-collector") y = true
    · rw [if_pos hk]
      have hyo : y = o1 := by
        have := List.mem_of_find?_eq_some hfindF
        obtain ⟨a, b⟩ := (hasKey_iff _ _ _).mp hk
        exact WF.unique hwfF hy this (a.trans ho1ns.symm) (b.trans ho1name.symm)
      rw [hyo]
      exact hsame
    · rw [if_neg hk]
      exact sameContent_refl y

/-- Witness of C6: the store of `TestDeleteExtraServiceMonitor`. -/
theorem reconcile_twice_same_content_witness :
    (reconcileServiceMonitor memClient true sampleInstance sampleLabels [extraService]).err
      = none ∧
    (reconcileServiceMonitor memClient true sampleInstance sampleLabels
      (reconcileServiceMonitor memClient true sampleInstance sampleLabels
        [extraService]).state).err = none ∧
    List.Forall₂ SameContent
      (reconcileServiceMonitor memClient true sampleInstance sampleLabels
        (reconcileServiceMonitor memClient true sampleInstance sampleLabels
          [extraService]).state).state
      (reconcileServiceMonitor memClient true sampleInstance sampleLabels [extraService]).state ∧
    Store.WF (reconcileServiceMonitor memClient true sampleInstance sampleLabels
      (reconcileServiceMonitor memClient true sampleInstance sampleLabels
        [extraService]).state).state :=
  reconcile_twice_same_content true sampleInstance sampleLabels [extraService]
    (List.nodup_singleton _)

end OtelOperator
